import Mathlib

/-!
Verification of the expression-compiling core of rlox2.0 (src/compiler.rs).

The compiler is a Pratt (operator-precedence) parser that turns a stream of
lexical tokens into a linear opcode sequence plus a constant pool.  The
embedding below translates `src/compiler.rs` function by function.  Pieces of
the repository that are referenced but not provided (`token.rs`, `scanner.rs`,
`chunk.rs`, `parser.rs`, `value.rs`, `alias.rs`) are modelled from the spec;
each such definition is marked in its doc comment.

Conventions of the embedding:
* The process standard-output stream is modelled as a list of structured
  lines (`OutLine`) carried in the compiler state; `println!` becomes an
  append.
* Rust `Result`/`?` becomes the `RRes` sum with explicit propagation; every
  `unwrap()` / `panic!` in the source becomes an explicit `RRes.panicked`
  branch carrying a tag naming the panic site.
* Recursion (the mutually recursive handler/engine calls through the rule
  table's function pointers) is defunctionalised into one structurally
  recursive step function over a fuel parameter, so that the kernel can
  evaluate concrete runs.  Running out of fuel is the distinguished outcome
  `RRes.fuelOut`, never an error or a panic.
* Two ghost fields (`skipped`, `erroredAt`) instrument the state to state
  reachability and temporal properties; they are never read by the algorithm.
-/

namespace RLox

/-- Modelled from the spec and the `/* TOKEN_... */` comments labelling the
rows of `RULES` in src/compiler.rs: the token-kind enumeration of `token.rs`
(not provided), 41 kinds in this rank order. -/
inductive TokenType where
  | LeftParen
  | RightParen
  | LeftBrace
  | RightBrace
  | Comma
  | Dot
  | MINUS
  | PLUS
  | Semicolon
  | SLASH
  | STAR
  | Bang
  | BangEqual
  | Equal
  | EqualEqual
  | Greater
  | GreaterEqual
  | Less
  | LessEqual
  | SlashEqual
  | Identifier
  | StringTok
  | Number
  | AND
  | CLASS
  | ELSE
  | FALSE
  | FOR
  | FUN
  | IF
  | NIL
  | OR
  | PRINT
  | RETURN
  | SUPER
  | THIS
  | TRUE
  | VAR
  | WHILE
  | Error
  | EOF
deriving DecidableEq, Repr, Fintype

/-- The `*token_type as usize` cast: the integer rank of a token kind. -/
def TokenType.rank : TokenType → Nat
  | .LeftParen => 0
  | .RightParen => 1
  | .LeftBrace => 2
  | .RightBrace => 3
  | .Comma => 4
  | .Dot => 5
  | .MINUS => 6
  | .PLUS => 7
  | .Semicolon => 8
  | .SLASH => 9
  | .STAR => 10
  | .Bang => 11
  | .BangEqual => 12
  | .Equal => 13
  | .EqualEqual => 14
  | .Greater => 15
  | .GreaterEqual => 16
  | .Less => 17
  | .LessEqual => 18
  | .SlashEqual => 19
  | .Identifier => 20
  | .StringTok => 21
  | .Number => 22
  | .AND => 23
  | .CLASS => 24
  | .ELSE => 25
  | .FALSE => 26
  | .FOR => 27
  | .FUN => 28
  | .IF => 29
  | .NIL => 30
  | .OR => 31
  | .PRINT => 32
  | .RETURN => 33
  | .SUPER => 34
  | .THIS => 35
  | .TRUE => 36
  | .VAR => 37
  | .WHILE => 38
  | .Error => 39
  | .EOF => 40

/-- The list of all token kinds in rank order (used to state table-shape
invariants). -/
def TokenType.all : List TokenType :=
  [.LeftParen, .RightParen, .LeftBrace, .RightBrace, .Comma, .Dot,
   .MINUS, .PLUS, .Semicolon, .SLASH, .STAR,
   .Bang, .BangEqual, .Equal, .EqualEqual, .Greater, .GreaterEqual,
   .Less, .LessEqual, .SlashEqual,
   .Identifier, .StringTok, .Number,
   .AND, .CLASS, .ELSE, .FALSE, .FOR, .FUN, .IF, .NIL, .OR, .PRINT,
   .RETURN, .SUPER, .THIS, .TRUE, .VAR, .WHILE, .Error, .EOF]

/-- `enum Precedence` from src/compiler.rs lines 21-35. -/
inductive Precedence where
  | NONE
  | Assignment
  | Or
  | And
  | Eq
  | Comp
  | Term
  | Factor
  | Unary
  | Call
  | Primary
deriving DecidableEq, Repr, Fintype

/-- The `precedence as usize` cast: integer rank of a precedence level. -/
def Precedence.toNat : Precedence → Nat
  | .NONE => 0
  | .Assignment => 1
  | .Or => 2
  | .And => 3
  | .Eq => 4
  | .Comp => 5
  | .Term => 6
  | .Factor => 7
  | .Unary => 8
  | .Call => 9
  | .Primary => 10

/-- `Precedence::from_repr` derived by `strum_macros::FromRepr`: the partial
inverse of the `as usize` cast. -/
def Precedence.from_repr : Nat → Option Precedence
  | 0 => some .NONE
  | 1 => some .Assignment
  | 2 => some .Or
  | 3 => some .And
  | 4 => some .Eq
  | 5 => some .Comp
  | 6 => some .Term
  | 7 => some .Factor
  | 8 => some .Unary
  | 9 => some .Call
  | 10 => some .Primary
  | _ => none

/-- Modelled from the spec: the `Token` record of `token.rs` (not provided).
Fields are exactly those read by src/compiler.rs: `token_type`, `start`,
`length`, `literal`, `line`, `message`. -/
structure Token where
  token_type : TokenType
  start : Nat
  length : Nat
  literal : Option String
  line : Nat
  message : Option String
deriving DecidableEq, Repr

/-- The prefix parse handlers that appear in `RULES` (function pointers in the
source, defunctionalised into tags; dispatch happens in the engine). -/
inductive PrefixFn where
  | grouping
  | unary
  | number
deriving DecidableEq, Repr

/-- The infix parse handlers that appear in `RULES`. -/
inductive InfixFn where
  | binary
deriving DecidableEq, Repr

/-- `struct ParseRule` from src/compiler.rs lines 39-44.  The field names
carry an `Fn` suffix because the bare source names are not usable here. -/
structure ParseRule where
  prefixFn : Option PrefixFn
  infixFn : Option InfixFn
  precedence : Precedence
deriving DecidableEq, Repr

/-- `const RULES: [ParseRule; 41]` from src/compiler.rs lines 47-294, row for
row in the same order. -/
def RULES : List ParseRule :=
  [ /- TOKEN_LEFT_PAREN -/
    { prefixFn := some .grouping, infixFn := none, precedence := .NONE },
    /- TOKEN_RIGHT_PAREN -/
    { prefixFn := none, infixFn := none, precedence := .NONE },
    /- TOKEN_LEFT_BRACE -/
    { prefixFn := none, infixFn := none, precedence := .NONE },
    /- TOKEN_RIGHT_BRACE -/
    { prefixFn := none, infixFn := none, precedence := .NONE },
    /- TOKEN_COMMA -/
    { prefixFn := none, infixFn := none, precedence := .NONE },
    /- TOKEN_DOT -/
    { prefixFn := none, infixFn := none, precedence := .NONE },
    /- TOKEN_MINUS -/
    { prefixFn := some .unary, infixFn := some .binary, precedence := .Term },
    /- TOKEN_PLUS -/
    { prefixFn := none, infixFn := some .binary, precedence := .Term },
    /- TOKEN_SEMICOLON -/
    { prefixFn := none, infixFn := none, precedence := .NONE },
    /- TOKEN_SLASH -/
    { prefixFn := none, infixFn := some .binary, precedence := .Factor },
    /- TOKEN_STAR -/
    { prefixFn := none, infixFn := some .binary, precedence := .Factor },
    /- TOKEN_BANG -/
    { prefixFn := none, infixFn := none, precedence := .NONE },
    /- TOKEN_BANG_EQUAL -/
    { prefixFn := none, infixFn := none, precedence := .NONE },
    /- TOKEN_EQUAL -/
    { prefixFn := none, infixFn := none, precedence := .NONE },
    /- TOKEN_EQUAL_EQUAL -/
    { prefixFn := none, infixFn := none, precedence := .NONE },
    /- TOKEN_GREATER -/
    { prefixFn := none, infixFn := none, precedence := .NONE },
    /- TOKEN_GREATER_EQUAL -/
    { prefixFn := none, infixFn := none, precedence := .NONE },
    /- TOKEN_LESS -/
    { prefixFn := none, infixFn := none, precedence := .NONE },
    /- TOKEN_LESS_EQUAL -/
    { prefixFn := none, infixFn := none, precedence := .NONE },
    /- TOKEN_SLASH_EQUAL -/
    { prefixFn := none, infixFn := none, precedence := .NONE },
    /- TOKEN_IDENTIFIER -/
    { prefixFn := none, infixFn := none, precedence := .NONE },
    /- TOKEN_STRING -/
    { prefixFn := none, infixFn := none, precedence := .NONE },
    /- TOKEN_NUMBER -/
    { prefixFn := some .number, infixFn := none, precedence := .NONE },
    /- TOKEN_AND -/
    { prefixFn := none, infixFn := none, precedence := .NONE },
    /- TOKEN_CLASS -/
    { prefixFn := none, infixFn := none, precedence := .NONE },
    /- TOKEN_ELSE -/
    { prefixFn := none, infixFn := none, precedence := .NONE },
    /- TOKEN_FALSE -/
    { prefixFn := none, infixFn := none, precedence := .NONE },
    /- TOKEN_FOR -/
    { prefixFn := none, infixFn := none, precedence := .NONE },
    /- TOKEN_FUN -/
    { prefixFn := none, infixFn := none, precedence := .NONE },
    /- TOKEN_IF -/
    { prefixFn := none, infixFn := none, precedence := .NONE },
    /- TOKEN_NIL -/
    { prefixFn := none, infixFn := none, precedence := .NONE },
    /- TOKEN_OR -/
    { prefixFn := none, infixFn := none, precedence := .NONE },
    /- TOKEN_PRINT -/
    { prefixFn := none, infixFn := none, precedence := .NONE },
    /- TOKEN_RETURN -/
    { prefixFn := none, infixFn := none, precedence := .NONE },
    /- TOKEN_SUPER -/
    { prefixFn := none, infixFn := none, precedence := .NONE },
    /- TOKEN_THIS -/
    { prefixFn := none, infixFn := none, precedence := .NONE },
    /- TOKEN_TRUE -/
    { prefixFn := none, infixFn := none, precedence := .NONE },
    /- TOKEN_VAR -/
    { prefixFn := none, infixFn := none, precedence := .NONE },
    /- TOKEN_WHILE -/
    { prefixFn := none, infixFn := none, precedence := .NONE },
    /- TOKEN_ERROR -/
    { prefixFn := none, infixFn := none, precedence := .NONE },
    /- TOKEN_EOF -/
    { prefixFn := none, infixFn := none, precedence := .NONE } ]

/-- `fn get_rule` (src/compiler.rs lines 463-467): index `RULES` by the token
kind's rank.  The source's `RULES.get(idx).unwrap()` is modelled by returning
the `Option`; every call site treats `none` as the panic of that `unwrap`. -/
def get_rule (token_type : TokenType) : Option ParseRule :=
  RULES[token_type.rank]?

/-- `fn next_precedence` (src/compiler.rs lines 458-461):
`Precedence::from_repr(code + 1).unwrap_or(Precedence::Assignment)`. -/
def next_precedence (variant : Precedence) : Precedence :=
  (Precedence.from_repr (variant.toNat + 1)).getD .Assignment

/-- Modelled from the spec: `Value` of `value.rs` (not provided); only the
floating-point variant is exercised.  The `f64` produced by
`literal.parse::<f64>()` is represented by the literal text it was parsed
from; parsing is deterministic, so equal literals denote equal floats. -/
inductive Value where
  | Float (lit : String)
deriving DecidableEq, Repr

/-- `OpCode` variants as used by src/compiler.rs (the enum lives in the
missing `chunk.rs`; variants and payloads modelled from the spec). -/
inductive OpCode where
  | Const (line : Nat) (const_idx : Nat)
  | Negate (line : Nat)
  | Add (line : Nat)
  | Sub (line : Nat)
  | Mul (line : Nat)
  | Div (line : Nat)
deriving DecidableEq, Repr

/-- Modelled from the spec: the `Chunk` container of `chunk.rs` (not
provided): an append-only opcode sequence plus a constant pool. -/
structure Chunk where
  code : List OpCode
  constants : List Value
deriving DecidableEq, Repr

/-- Modelled from the spec: `Chunk::push` appends one opcode. -/
def Chunk.push (c : Chunk) (op : OpCode) : Chunk :=
  { c with code := c.code ++ [op] }

/-- Modelled from the spec: `Chunk::push_const` interns a constant and
returns its index. -/
def Chunk.push_const (c : Chunk) (v : Value) : Nat × Chunk :=
  (c.constants.length, { c with constants := c.constants ++ [v] })

/-- Modelled from the spec: the external token source of `scanner.rs` (not
provided), reduced to the token stream it would produce for the compiled
source text. -/
structure Scanner where
  tokens : List Token
deriving DecidableEq, Repr

/-- Modelled from the spec: the token the scanner yields once the source is
exhausted (an end-of-input token). -/
def Scanner.eof_token : Token :=
  { token_type := .EOF, start := 0, length := 0, literal := none,
    line := 0, message := none }

/-- Modelled from the spec: `Scanner::scan_token` produces one token per
request; after the stream is exhausted it keeps yielding the end-of-input
token. -/
def Scanner.scan_token (s : Scanner) : Token × Scanner :=
  match s.tokens with
  | [] => (Scanner.eof_token, s)
  | t :: ts => (t, { tokens := ts })

/-- Modelled from the spec: the parser cursor of `parser.rs` (not provided),
holding the two live tokens. -/
structure Parser where
  current : Option Token
  previous : Option Token
deriving DecidableEq, Repr

/-- Modelled from the spec: `Parser::new` starts with an empty cursor. -/
def Parser.new : Parser :=
  { current := none, previous := none }

/-- One line written to the process standard output, kept structured: `trace`
for the diagnostic `println!` lines, `errLine` for the `[line N] Error ...`
diagnostic printed by `error_at`. -/
inductive OutLine where
  | trace (tag : String)
  | errLine (token : Token) (message : String)
deriving DecidableEq, Repr

/-- Outcome of a compiler operation: Rust's `VoidResult` (`Ok`/`Err`) plus an
explicit `panicked` constructor for each `unwrap()`/`panic!` site and
`fuelOut` for exhaustion of the embedding's fuel (not a behaviour of the
program). -/
inductive RRes (α : Type) where
  | ok (a : α)
  | perr
  | panicked (tag : String)
  | fuelOut
deriving DecidableEq, Repr

/-- `struct Compiler` (src/compiler.rs lines 14-19) extended with the
modelled standard-output stream and two ghost fields: `skipped` counts
executions of the `continue` branch of the infix loop, `erroredAt` records
the opcode-count of the chunk at the moment the first error was raised.
The ghosts are written, never read, by the algorithm. -/
structure Compiler where
  parser : Parser
  scanner : Scanner
  current_chunk : Option Chunk
  debug_mode : Bool
  stdout : List OutLine
  skipped : Nat
  erroredAt : Option Nat
deriving DecidableEq, Repr

/-- Append one line to the modelled standard output. -/
def pushOut (c : Compiler) (l : OutLine) : Compiler :=
  { c with stdout := c.stdout ++ [l] }

/-- The `if self.debug_mode { println!(...) }` pattern guarding every trace
line of src/compiler.rs except the pre-loop one in `parse_precedence`. -/
def traceIf (c : Compiler) (tag : String) : Compiler :=
  if c.debug_mode then pushOut c (.trace tag) else c

/-- The opcode sequence of the bound chunk (empty when no chunk is bound). -/
def codeOf (c : Compiler) : List OpCode :=
  match c.current_chunk with
  | some ch => ch.code
  | none => []

/-- The constant pool of the bound chunk (empty when no chunk is bound). -/
def constsOf (c : Compiler) : List Value :=
  match c.current_chunk with
  | some ch => ch.constants
  | none => []

/-- `Compiler::from_source` (src/compiler.rs lines 297-306), with the scanner
already reduced to its token stream. -/
def from_source (tokens : List Token) (debug_mode : Bool) : Compiler :=
  { parser := Parser.new, scanner := { tokens := tokens },
    current_chunk := none, debug_mode := debug_mode,
    stdout := [], skipped := 0, erroredAt := none }

/-- `fn error_at` (src/compiler.rs lines 363-375): print the diagnostic line
(unconditionally) and return the parse error.  The ghost `erroredAt` records
the chunk's opcode count at the first error. -/
def error_at (c : Compiler) (token : Token) (message : String) :
    RRes Unit × Compiler :=
  let c1 := pushOut c (.errLine token message)
  let c2 := { c1 with erroredAt :=
    match c1.erroredAt with
    | none => some (codeOf c1).length
    | some n => some n }
  (.perr, c2)

/-- `fn error_at_current` (src/compiler.rs lines 355-357); the
`current().unwrap()` is the `panicked "currentNone"` branch. -/
def error_at_current (c : Compiler) (message : String) :
    RRes Unit × Compiler :=
  match c.parser.current with
  | none => (.panicked "currentNone", c)
  | some cur => error_at c cur message

/-- `fn error` (src/compiler.rs lines 359-361); the `previous().unwrap()` is
the `panicked "previousNone"` branch. -/
def error (c : Compiler) (message : String) : RRes Unit × Compiler :=
  match c.parser.previous with
  | none => (.panicked "previousNone", c)
  | some prev => error_at c prev message

/-- `fn advance` (src/compiler.rs lines 335-353): shift current into
previous, pull one token, install it as current, trace, and raise the
scanner's lexical error if the token is of the error kind.  The
`message.clone().unwrap()` on an error token lacking a message is the
`panicked "messageNone"` branch; the final `current().unwrap()` reads the
token just installed. -/
def advance (c : Compiler) : RRes Unit × Compiler :=
  let c1 := { c with parser := { c.parser with previous := c.parser.current } }
  let res := Scanner.scan_token c1.scanner
  let new_token := res.1
  let c2 := { c1 with scanner := res.2 }
  if new_token.token_type = .Error then
    match new_token.message with
    | none => (.panicked "messageNone", c2)
    | some m =>
      let c3 := { c2 with parser := { c2.parser with current := some new_token } }
      error_at_current (traceIf c3 "Called advance") m
  else
    let c3 := { c2 with parser := { c2.parser with current := some new_token } }
    (.ok (), traceIf c3 "Called advance")

/-- `fn consume` (src/compiler.rs lines 377-383). -/
def consume (c : Compiler) (token_type : TokenType) (message : String) :
    RRes Unit × Compiler :=
  match c.parser.current with
  | none => (.panicked "currentNone", c)
  | some cur =>
    if cur.token_type = token_type then advance c
    else error_at_current c message

/-- `fn emit_op_code` (src/compiler.rs lines 385-394): trace in debug mode,
then append to the bound chunk; the `current_chunk...unwrap()` is the
`panicked "chunkNone"` branch. -/
def emit_op_code (c : Compiler) (op_code : OpCode) : RRes Unit × Compiler :=
  let c1 := traceIf c "Emitted opcode"
  match c1.current_chunk with
  | none => (.panicked "chunkNone", c1)
  | some ch => (.ok (), { c1 with current_chunk := some (ch.push op_code) })

/-- `fn make_const` (src/compiler.rs lines 403-409). -/
def make_const (c : Compiler) (value : Value) : RRes Nat × Compiler :=
  match c.current_chunk with
  | none => (.panicked "chunkNone", c)
  | some ch =>
    let r := ch.push_const value
    (.ok r.1, { c with current_chunk := some r.2 })

/-- `fn emit_const` (src/compiler.rs lines 396-401): the opcode's `line`
field is `self.line()` = `previous().unwrap().line`, evaluated before
`make_const` mutates the chunk. -/
def emit_const (c : Compiler) (value : Value) : RRes Unit × Compiler :=
  match c.parser.previous with
  | none => (.panicked "previousNone", c)
  | some prev =>
    match make_const c value with
    | (.ok idx, c1) => emit_op_code c1 (.Const prev.line idx)
    | (.perr, c1) => (.perr, c1)
    | (.panicked t, c1) => (.panicked t, c1)
    | (.fuelOut, c1) => (.fuelOut, c1)

/-- `fn number` (src/compiler.rs lines 422-437): wrap the previous token's
literal as a float constant and emit `Const`.  The two `unwrap()`s are the
`previousNone` / `literalNone` panic branches; failure of the `f64` parse
itself is an upstream-scanner contract violation the spec excludes, so the
literal text directly denotes the float. -/
def number (c : Compiler) : RRes Unit × Compiler :=
  match c.parser.previous with
  | none => (.panicked "previousNone", c)
  | some prev =>
    match prev.literal with
    | none => (.panicked "literalNone", c)
    | some lit =>
      let value := Value.Float lit
      emit_const (traceIf c "Called number") value

/-- Emit an opcode whose only payload is `self.line()` =
`previous().unwrap().line` (the shared tail of `unary` and `binary`). -/
def emit_line_op (c : Compiler) (mk : Nat → OpCode) : RRes Unit × Compiler :=
  match c.parser.previous with
  | none => (.panicked "previousNone", c)
  | some prev => emit_op_code c (mk prev.line)

/-- The `match op_type` tail of `fn binary` (src/compiler.rs lines 485-503):
emit the opcode matching the operator, or hit the
`panic!("Unsupported binary token")` catch-all. -/
def binary_emit (c : Compiler) (op_type : TokenType) : RRes Unit × Compiler :=
  match op_type with
  | .PLUS => emit_line_op c .Add
  | .MINUS => emit_line_op c .Sub
  | .SLASH => emit_line_op c .Div
  | .STAR => emit_line_op c .Mul
  | _ => (.panicked "unsupportedBinary", c)

/-- The recursive entry points of the engine, defunctionalised: `expression`,
`parse_precedence`, its infix `while` loop, and the three recursive handlers
stored as function pointers in `RULES`. -/
inductive Call where
  | expression
  | parseP (precedence : Precedence)
  | infixL (precedence : Precedence)
  | grouping
  | unary
  | binary
deriving DecidableEq, Repr

/-- The mutually recursive core of src/compiler.rs as one structurally
recursive function over fuel:

* `.expression` = `fn expression` (lines 415-420);
* `.parseP p` = `fn parse_precedence` (lines 506-565) up to and including the
  pre-loop `Skipping infix rule loop` print — note that this `println!` is
  NOT guarded by `debug_mode` in the source, unlike every other trace line;
* `.infixL p` = the `while` loop of `parse_precedence` (lines 538-563), one
  iteration per step, with the `continue` branch (line 557) counting into the
  ghost `skipped`;
* `.grouping` = `fn grouping` (lines 439-442);
* `.unary` = `fn unary` (lines 444-456);
* `.binary` = `fn binary` (lines 469-504), whose catch-all
  `panic!("Unsupported binary token")` is the `panicked "unsupportedBinary"`
  branch. -/
def compilerStep : Nat → Call → Compiler → RRes Unit × Compiler
  | 0, _, c => (.fuelOut, c)
  | fuel + 1, call, c =>
    match call with
    | .expression =>
      compilerStep fuel (.parseP .Assignment) (traceIf c "Called expression")
    | .parseP precedence =>
      match advance (traceIf c "Called parse_precedence") with
      | (.ok _, c2) =>
        match c2.parser.previous with
        | none => (.panicked "previousNone", c2)
        | some prev =>
          match get_rule prev.token_type with
          | none => (.panicked "rulesNone", c2)
          | some rule =>
            match rule.prefixFn with
            | none => error c2 "Expected expression"
            | some pf =>
              match (match pf with
                | .grouping => compilerStep fuel .grouping c2
                | .unary => compilerStep fuel .unary c2
                | .number => number c2) with
              | (.ok _, c3) =>
                match c3.parser.current with
                | none => (.panicked "currentNone", c3)
                | some cur =>
                  match get_rule cur.token_type with
                  | none => (.panicked "rulesNone", c3)
                  | some crule =>
                    let c4 := if precedence.toNat ≤ crule.precedence.toNat
                      then c3
                      else pushOut c3 (.trace "Skipping infix rule loop")
                    compilerStep fuel (.infixL precedence) c4
              | other => other
      | other => other
    | .infixL precedence =>
      match c.parser.current with
      | none => (.panicked "currentNone", c)
      | some cur =>
        match get_rule cur.token_type with
        | none => (.panicked "rulesNone", c)
        | some crule =>
          if precedence.toNat ≤ crule.precedence.toNat then
            match advance (traceIf c "Inside infix rule loop") with
            | (.ok _, c2) =>
              match c2.parser.previous with
              | none => (.panicked "previousNone", c2)
              | some prev =>
                match get_rule prev.token_type with
                | none => (.panicked "rulesNone", c2)
                | some prule =>
                  match prule.infixFn with
                  | none =>
                    compilerStep fuel (.infixL precedence)
                      { c2 with skipped := c2.skipped + 1 }
                  | some .binary =>
                    match compilerStep fuel .binary
                        (traceIf c2 "Calling infix rule") with
                    | (.ok _, c4) => compilerStep fuel (.infixL precedence) c4
                    | other => other
            | other => other
          else (.ok (), c)
    | .grouping =>
      match compilerStep fuel .expression c with
      | (.ok _, c1) => consume c1 .RightParen "Expected close paren"
      | other => other
    | .unary =>
      match c.parser.previous with
      | none => (.panicked "previousNone", c)
      | some prev =>
        let op_type := prev.token_type
        match compilerStep fuel (.parseP .Unary) c with
        | (.ok _, c1) =>
          let c2 := traceIf c1 "Called unary"
          if op_type = .MINUS then emit_line_op c2 .Negate
          else (.ok (), c2)
        | other => other
    | .binary =>
      match c.parser.previous with
      | none => (.panicked "previousNone", c)
      | some prev =>
        let op_type := prev.token_type
        match get_rule op_type with
        | none => (.panicked "rulesNone", c)
        | some rule =>
          let np := next_precedence rule.precedence
          match compilerStep fuel (.parseP np) (traceIf c "Called binary") with
          | (.ok _, c2) => binary_emit c2 op_type
          | other => other

/-- `fn compile` (src/compiler.rs lines 308-314) with explicit fuel for the
engine: bind the chunk, prime the cursor, parse one expression, require
end-of-input. -/
def compileF (fuel : Nat) (c : Compiler) (chunk : Chunk) :
    RRes Unit × Compiler :=
  let c0 := { c with current_chunk := some chunk }
  match advance c0 with
  | (.ok _, c1) =>
    match compilerStep fuel .expression c1 with
    | (.ok _, c2) => consume c2 .EOF "Expected end of expression"
    | other => other
  | other => other

/-- `fn compile` at a fuel that covers the recursion depth of the given token
stream (each engine step consumes at least one token along any path). -/
def compile (c : Compiler) (chunk : Chunk) : RRes Unit × Compiler :=
  compileF (4 * c.scanner.tokens.length + 8) c chunk

end RLox

namespace RLox

/-! ### Frame lemmas for the state helpers -/

lemma pushOut_cursor (c : Compiler) (l : OutLine) : (pushOut c l).parser = c.parser := rfl

lemma pushOut_chunk (c : Compiler) (l : OutLine) :
    (pushOut c l).current_chunk = c.current_chunk := rfl

lemma codeOf_pushOut (c : Compiler) (l : OutLine) : codeOf (pushOut c l) = codeOf c := rfl

lemma pushOut_erroredAt (c : Compiler) (l : OutLine) : (pushOut c l).erroredAt = c.erroredAt := rfl

lemma pushOut_skipped (c : Compiler) (l : OutLine) : (pushOut c l).skipped = c.skipped := rfl

lemma pushOut_debug (c : Compiler) (l : OutLine) : (pushOut c l).debug_mode = c.debug_mode := rfl

lemma traceIf_cursor (c : Compiler) (t : String) : (traceIf c t).parser = c.parser := by
  unfold traceIf; split <;> rfl

lemma traceIf_chunk (c : Compiler) (t : String) :
    (traceIf c t).current_chunk = c.current_chunk := by
  unfold traceIf; split <;> rfl

lemma codeOf_traceIf (c : Compiler) (t : String) : codeOf (traceIf c t) = codeOf c := by
  unfold traceIf; split <;> rfl

lemma traceIf_erroredAt (c : Compiler) (t : String) : (traceIf c t).erroredAt = c.erroredAt := by
  unfold traceIf; split <;> rfl

lemma traceIf_skipped (c : Compiler) (t : String) : (traceIf c t).skipped = c.skipped := by
  unfold traceIf; split <;> rfl

lemma traceIf_debug (c : Compiler) (t : String) : (traceIf c t).debug_mode = c.debug_mode := by
  unfold traceIf; split <;> rfl

/-! ### Step postconditions

`StepCore` is the invariant carried through every operation of a compile:
the chunk's opcode list only grows; starting from an un-errored state, the
operation reports a parse error exactly when it records one, and the ghost
`erroredAt` (when set) equals the length of the opcode list at return, so no
opcode was appended after the error; the ghost `skipped` is untouched; and
the result is never the panic of a `current().unwrap()`.  `StepPost` adds
that a successful operation leaves a present current token. -/

def StepCore (c : Compiler) (out : RRes Unit × Compiler) : Prop :=
  (∃ γ, codeOf out.2 = codeOf c ++ γ) ∧
  (c.erroredAt = none →
     ((out.1 = .perr ↔ (out.2.erroredAt).isSome = true) ∧
      (out.2.erroredAt = none ∨ out.2.erroredAt = some (codeOf out.2).length))) ∧
  out.2.skipped = c.skipped ∧
  out.1 ≠ .panicked "currentNone"

def StepPost (c : Compiler) (out : RRes Unit × Compiler) : Prop :=
  StepCore c out ∧ (out.1 = .ok () → (out.2.parser.current).isSome = true)

lemma stepcore_pure {c c' : Compiler} {r : RRes Unit}
    (hcode : codeOf c' = codeOf c) (herr : c'.erroredAt = c.erroredAt)
    (hskip : c'.skipped = c.skipped)
    (hperr : r ≠ .perr) (hcur : r ≠ .panicked "currentNone") :
    StepCore c (r, c') := by
  refine ⟨⟨[], by simp [hcode]⟩, ?_, hskip, hcur⟩
  intro h0
  rw [herr, h0]
  simp [hperr]

lemma stepcore_entry {c0 c : Compiler} {out : RRes Unit × Compiler}
    (hcode : codeOf c = codeOf c0) (herr : c.erroredAt = c0.erroredAt)
    (hskip : c.skipped = c0.skipped) (h : StepCore c out) : StepCore c0 out := by
  obtain ⟨⟨γ, hγ⟩, he, hs, hc⟩ := h
  exact ⟨⟨γ, by rw [hγ, hcode]⟩, fun h0 => he (herr.trans h0), hs.trans hskip, hc⟩

lemma steppost_entry {c0 c : Compiler} {out : RRes Unit × Compiler}
    (hcode : codeOf c = codeOf c0) (herr : c.erroredAt = c0.erroredAt)
    (hskip : c.skipped = c0.skipped) (h : StepPost c out) : StepPost c0 out :=
  ⟨stepcore_entry hcode herr hskip h.1, h.2⟩

lemma erroredAt_none_of_ok {c1 : Compiler} {a : Unit} {c : Compiler}
    (h : StepCore c (.ok a, c1)) (h0 : c.erroredAt = none) : c1.erroredAt = none := by
  have h1 : ((.ok a : RRes Unit) = .perr) ↔ (c1.erroredAt).isSome = true :=
    (h.2.1 h0).1
  by_contra hne
  have hs : (c1.erroredAt).isSome = true := Option.isSome_iff_ne_none.mpr hne
  cases h1.mpr hs

lemma stepcore_seq {c c1 : Compiler} {a : Unit} {out : RRes Unit × Compiler}
    (h1 : StepCore c (.ok a, c1)) (h2 : StepCore c1 out) : StepCore c out := by
  obtain ⟨⟨γ1, hγ1⟩, he1, hs1, _⟩ := h1
  obtain ⟨⟨γ2, hγ2⟩, he2, hs2, hc2⟩ := h2
  refine ⟨⟨γ1 ++ γ2, by rw [hγ2, hγ1, List.append_assoc]⟩, ?_, hs2.trans hs1, hc2⟩
  intro h0
  exact he2 (erroredAt_none_of_ok ⟨⟨γ1, hγ1⟩, he1, hs1, by simp⟩ h0)

lemma steppost_seq {c c1 : Compiler} {a : Unit} {out : RRes Unit × Compiler}
    (h1 : StepCore c (.ok a, c1)) (h2 : StepPost c1 out) : StepPost c out :=
  ⟨stepcore_seq h1 h2.1, h2.2⟩

lemma steppost_of_core {c : Compiler} {r : RRes Unit} {c' : Compiler}
    (h : StepCore c (r, c')) (hr : r = .ok () → (c'.parser.current).isSome = true) :
    StepPost c (r, c') := ⟨h, hr⟩

lemma stepcore_result {c c' : Compiler} {r' : RRes Unit}
    (h : StepCore c (.ok (), c')) (hp : r' ≠ .perr)
    (hc : r' ≠ .panicked "currentNone") : StepCore c (r', c') := by
  obtain ⟨hγ, he, hs, _⟩ := h
  refine ⟨hγ, ?_, hs, hc⟩
  intro h0
  have hnone : c'.erroredAt = none :=
    erroredAt_none_of_ok ⟨hγ, he, hs, by simp⟩ h0
  rw [hnone]
  simp [hp]

end RLox

namespace RLox

/-! ### Postconditions of the non-recursive compiler operations -/

lemma error_at_cursor (c : Compiler) (token : Token) (message : String) :
    (error_at c token message).2.parser = c.parser := rfl

lemma error_at_post (c : Compiler) (token : Token) (message : String) :
    StepPost c (error_at c token message) := by
  unfold error_at pushOut
  refine ⟨⟨⟨[], by simp [codeOf]⟩, ?_, rfl, by simp⟩, by intro h; simp at h⟩
  intro h0
  simp only [h0]
  exact ⟨by simp, Or.inr rfl⟩

lemma error_at_current_cursor (c : Compiler) (message : String) :
    (error_at_current c message).2.parser = c.parser := by
  unfold error_at_current
  cases c.parser.current <;> simp [error_at_cursor]

lemma error_at_current_post (c : Compiler) (message : String)
    (h : (c.parser.current).isSome = true) :
    StepPost c (error_at_current c message) := by
  unfold error_at_current
  cases hc : c.parser.current with
  | none => rw [hc] at h; cases h
  | some cur => exact error_at_post c cur message

lemma error_cursor (c : Compiler) (message : String) :
    (error c message).2.parser = c.parser := by
  unfold error
  cases c.parser.previous <;> simp [error_at_cursor]

lemma error_post (c : Compiler) (message : String) :
    StepPost c (error c message) := by
  unfold error
  cases c.parser.previous with
  | none =>
    exact ⟨stepcore_pure rfl rfl rfl (by simp) (by simp), by intro h; simp at h⟩
  | some prev => exact error_at_post c prev message

end RLox

namespace RLox

lemma advance_previous (c : Compiler) :
    ((advance c).2).parser.previous = c.parser.current := by
  unfold advance
  dsimp only
  split
  · split
    · rfl
    · rw [error_at_current_cursor, traceIf_cursor]
  · rw [traceIf_cursor]

lemma advance_post (c : Compiler) : StepPost c (advance c) := by
  unfold advance
  dsimp only
  split
  · split
    · exact ⟨stepcore_pure rfl rfl rfl (by simp) (by simp), by intro h; simp at h⟩
    · refine steppost_entry ?_ ?_ ?_ (error_at_current_post _ _ ?_)
      · rw [codeOf_traceIf]
        simp [codeOf]
      · rw [traceIf_erroredAt]
      · rw [traceIf_skipped]
      · rw [traceIf_cursor]
        rfl
  · refine ⟨stepcore_pure ?_ ?_ ?_ (by simp) (by simp), ?_⟩
    · exact (codeOf_traceIf _ _)
    · exact (traceIf_erroredAt _ _)
    · exact (traceIf_skipped _ _)
    · intro _
      rw [traceIf_cursor]
      rfl

end RLox

namespace RLox

lemma consume_post (c : Compiler) (tt : TokenType) (m : String)
    (h : (c.parser.current).isSome = true) : StepPost c (consume c tt m) := by
  unfold consume
  cases hc : c.parser.current with
  | none => rw [hc] at h; cases h
  | some cur =>
    dsimp only
    split
    · exact advance_post c
    · exact error_at_current_post c m (by rw [hc]; rfl)

lemma emit_op_code_cursor (c : Compiler) (op : OpCode) :
    (emit_op_code c op).2.parser = c.parser := by
  unfold emit_op_code
  dsimp only
  split <;> rw [traceIf_cursor]

lemma emit_op_code_core (c : Compiler) (op : OpCode) :
    StepCore c (emit_op_code c op) := by
  unfold emit_op_code
  dsimp only
  split
  · refine stepcore_pure ?_ ?_ ?_ (by simp) (by simp)
    · rename_i hch
      simp [codeOf, codeOf_traceIf, traceIf_chunk] at hch ⊢
    · rw [traceIf_erroredAt]
    · rw [traceIf_skipped]
  · rename_i ch hch
    refine ⟨⟨[op], ?_⟩, ?_, ?_, by simp⟩
    · have h1 : (traceIf c "Emitted opcode").current_chunk = c.current_chunk :=
        traceIf_chunk _ _
      rw [h1] at hch
      simp [codeOf, hch, Chunk.push]
    · intro h0
      have h2 : (traceIf c "Emitted opcode").erroredAt = c.erroredAt :=
        traceIf_erroredAt _ _
      constructor
      · simp [h2, h0]
      · left
        simp [h2, h0]
    · rw [traceIf_skipped]

lemma emit_line_op_cursor (c : Compiler) (mk : Nat → OpCode) :
    (emit_line_op c mk).2.parser = c.parser := by
  unfold emit_line_op
  cases c.parser.previous <;> simp [emit_op_code_cursor]

lemma emit_line_op_core (c : Compiler) (mk : Nat → OpCode) :
    StepCore c (emit_line_op c mk) := by
  unfold emit_line_op
  cases c.parser.previous with
  | none => exact stepcore_pure rfl rfl rfl (by simp) (by simp)
  | some prev => exact emit_op_code_core c _

lemma binary_emit_cursor (c : Compiler) (t : TokenType) :
    (binary_emit c t).2.parser = c.parser := by
  cases t <;> simp only [binary_emit] <;>
    exact emit_line_op_cursor _ _

lemma binary_emit_core (c : Compiler) (t : TokenType) :
    StepCore c (binary_emit c t) := by
  cases t <;> simp only [binary_emit] <;>
    first
      | exact emit_line_op_core _ _
      | exact stepcore_pure rfl rfl rfl (by simp) (by simp)

end RLox

namespace RLox

lemma emit_const_cursor (c : Compiler) (v : Value) :
    (emit_const c v).2.parser = c.parser := by
  unfold emit_const make_const
  cases c.parser.previous with
  | none => rfl
  | some prev =>
    dsimp only
    cases c.current_chunk with
    | none => rfl
    | some ch => simp [emit_op_code_cursor]

lemma emit_const_core (c : Compiler) (v : Value) :
    StepCore c (emit_const c v) := by
  unfold emit_const make_const
  cases c.parser.previous with
  | none => exact stepcore_pure rfl rfl rfl (by simp) (by simp)
  | some prev =>
    dsimp only
    cases hch : c.current_chunk with
    | none => exact stepcore_pure rfl rfl rfl (by simp) (by simp)
    | some ch =>
      dsimp only
      refine stepcore_entry ?_ ?_ ?_ (emit_op_code_core _ _)
      · simp [codeOf, hch, Chunk.push_const]
      · rfl
      · rfl

lemma number_cursor (c : Compiler) : (number c).2.parser = c.parser := by
  unfold number
  cases c.parser.previous with
  | none => rfl
  | some prev =>
    dsimp only
    cases prev.literal with
    | none => rfl
    | some lit => rw [emit_const_cursor, traceIf_cursor]

lemma number_core (c : Compiler) : StepCore c (number c) := by
  unfold number
  cases c.parser.previous with
  | none => exact stepcore_pure rfl rfl rfl (by simp) (by simp)
  | some prev =>
    dsimp only
    cases prev.literal with
    | none => exact stepcore_pure rfl rfl rfl (by simp) (by simp)
    | some lit =>
      refine stepcore_entry ?_ ?_ ?_ (emit_const_core _ _)
      · rw [codeOf_traceIf]
      · rw [traceIf_erroredAt]
      · rw [traceIf_skipped]

end RLox

namespace RLox

/-! ### Facts about the rule table and the precedence ladder -/

lemma next_precedence_pos (p : Precedence) : 1 ≤ (next_precedence p).toNat := by
  revert p
  decide

lemma rules_infix_all : ∀ t : TokenType,
    (get_rule t).all (fun r => r.precedence.toNat = 0 || r.infixFn.isSome) = true := by
  decide

lemma rules_infix_of_prec {t : TokenType} {r : ParseRule}
    (hg : get_rule t = some r) (hp : 1 ≤ r.precedence.toNat) :
    (r.infixFn).isSome = true := by
  have h := rules_infix_all t
  rw [hg] at h
  simp only [Option.all_some] at h
  rcases Bool.or_eq_true_iff.mp h with h0 | h1
  · exfalso
    have h0' : r.precedence.toNat = 0 := of_decide_eq_true h0
    omega
  · exact h1

/-- Precondition of each engine entry point: `parse_precedence` and the infix
loop run at a minimum precedence of at least `Assignment` (every caller does
so), and the infix loop is entered with a present current token. -/
def callPre : Call → Compiler → Prop
  | .parseP p, _ => 1 ≤ p.toNat
  | .infixL p, c => 1 ≤ p.toNat ∧ (c.parser.current).isSome = true
  | _, _ => True

lemma parseP_loop_entry {n : Nat} {p : Precedence} {c c3 : Compiler}
    (hcore : StepCore c (.ok (), c3))
    (hcur : (c3.parser.current).isSome = true)
    (hp : 1 ≤ p.toNat)
    (ihL : ∀ cm, callPre (.infixL p) cm → StepPost cm (compilerStep n (.infixL p) cm)) :
    StepPost c (match c3.parser.current with
      | none => (.panicked "currentNone", c3)
      | some cur =>
        match get_rule cur.token_type with
        | none => (.panicked "rulesNone", c3)
        | some crule =>
          compilerStep n (.infixL p)
            (if p.toNat ≤ crule.precedence.toNat then c3
             else pushOut c3 (.trace "Skipping infix rule loop"))) := by
  cases hc : c3.parser.current with
  | none => rw [hc] at hcur; cases hcur
  | some cur =>
    dsimp only
    cases hr : get_rule cur.token_type with
    | none =>
      exact ⟨stepcore_result hcore (by simp) (by simp), by intro h; simp at h⟩
    | some crule =>
      dsimp only
      split
      · exact steppost_seq hcore (ihL c3 ⟨hp, by rw [hc]; rfl⟩)
      · refine steppost_seq hcore
          (steppost_entry ?_ ?_ ?_ (ihL (pushOut c3 (.trace "Skipping infix rule loop"))
            ⟨hp, ?_⟩))
        · rw [codeOf_pushOut]
        · rw [pushOut_erroredAt]
        · rw [pushOut_skipped]
        · rw [pushOut_cursor, hc]
          rfl

end RLox

namespace RLox

/-- Master invariant of the engine: under each entry point's precondition,
one engine step satisfies `StepPost` — the chunk is append-only, errors are
recorded exactly once and terminally, the ghost `skipped` counter never
moves (the `continue` branch is unreachable), no `current().unwrap()`
panics, and success leaves a present current token. -/
lemma step_post : ∀ (fuel : Nat) (call : Call) (c : Compiler),
    callPre call c → StepPost c (compilerStep fuel call c) := by
  intro fuel
  induction fuel with
  | zero =>
    intro call c _
    simp only [compilerStep]
    exact ⟨stepcore_pure rfl rfl rfl (by simp) (by simp), by intro h; simp at h⟩
  | succ n ih =>
    intro call c hpre
    cases call with
    | expression =>
      simp only [compilerStep]
      refine steppost_entry ?_ ?_ ?_
        (ih (.parseP .Assignment) _ (by decide : 1 ≤ Precedence.toNat .Assignment))
      · rw [codeOf_traceIf]
      · rw [traceIf_erroredAt]
      · rw [traceIf_skipped]
    | parseP p =>
      simp only [compilerStep]
      have hadvP := advance_post (traceIf c "Called parse_precedence")
      rcases hadv : advance (traceIf c "Called parse_precedence") with ⟨r, c2⟩
      rw [hadv] at hadvP
      have hadvPc : StepPost c (r, c2) :=
        steppost_entry (codeOf_traceIf c _) (traceIf_erroredAt c _)
          (traceIf_skipped c _) hadvP
      cases r with
      | ok a =>
        dsimp only
        have hcur2 : (c2.parser.current).isSome = true := hadvPc.2 rfl
        cases hprev : c2.parser.previous with
        | none =>
          exact ⟨stepcore_result hadvPc.1 (by simp) (by simp), by intro h; simp at h⟩
        | some prev =>
          dsimp only
          cases hrule : get_rule prev.token_type with
          | none =>
            exact ⟨stepcore_result hadvPc.1 (by simp) (by simp), by intro h; simp at h⟩
          | some rule =>
            dsimp only
            cases hpf : rule.prefixFn with
            | none => exact steppost_seq hadvPc.1 (error_post c2 _)
            | some pf =>
              dsimp only
              cases pf with
              | grouping =>
                have hh := ih .grouping c2 trivial
                rcases hg : compilerStep n .grouping c2 with ⟨r3, c3⟩
                rw [hg] at hh
                cases r3 with
                | ok a3 =>
                  dsimp only
                  exact parseP_loop_entry (stepcore_seq hadvPc.1 hh.1) (hh.2 rfl)
                    hpre (fun cm hm => ih (.infixL p) cm hm)
                | perr =>
                  exact ⟨stepcore_seq hadvPc.1 hh.1, by intro h; simp at h⟩
                | panicked t =>
                  exact ⟨stepcore_seq hadvPc.1 hh.1, by intro h; simp at h⟩
                | fuelOut =>
                  exact ⟨stepcore_seq hadvPc.1 hh.1, by intro h; simp at h⟩
              | unary =>
                have hh := ih .unary c2 trivial
                rcases hg : compilerStep n .unary c2 with ⟨r3, c3⟩
                rw [hg] at hh
                cases r3 with
                | ok a3 =>
                  dsimp only
                  exact parseP_loop_entry (stepcore_seq hadvPc.1 hh.1) (hh.2 rfl)
                    hpre (fun cm hm => ih (.infixL p) cm hm)
                | perr =>
                  exact ⟨stepcore_seq hadvPc.1 hh.1, by intro h; simp at h⟩
                | panicked t =>
                  exact ⟨stepcore_seq hadvPc.1 hh.1, by intro h; simp at h⟩
                | fuelOut =>
                  exact ⟨stepcore_seq hadvPc.1 hh.1, by intro h; simp at h⟩
              | number =>
                have hh : StepPost c2 (number c2) :=
                  ⟨number_core c2, by intro _; rw [number_cursor]; exact hcur2⟩
                rcases hg : number c2 with ⟨r3, c3⟩
                rw [hg] at hh
                cases r3 with
                | ok a3 =>
                  dsimp only
                  exact parseP_loop_entry (stepcore_seq hadvPc.1 hh.1) (hh.2 rfl)
                    hpre (fun cm hm => ih (.infixL p) cm hm)
                | perr =>
                  exact ⟨stepcore_seq hadvPc.1 hh.1, by intro h; simp at h⟩
                | panicked t =>
                  exact ⟨stepcore_seq hadvPc.1 hh.1, by intro h; simp at h⟩
                | fuelOut =>
                  exact ⟨stepcore_seq hadvPc.1 hh.1, by intro h; simp at h⟩
      | perr => exact hadvPc
      | panicked t => exact hadvPc
      | fuelOut => exact hadvPc
    | infixL p =>
      obtain ⟨hp1, hps⟩ := hpre
      simp only [compilerStep]
      cases hc : c.parser.current with
      | none => rw [hc] at hps; cases hps
      | some cur =>
        dsimp only
        cases hcr : get_rule cur.token_type with
        | none =>
          exact ⟨stepcore_pure rfl rfl rfl (by simp) (by simp), by intro h; simp at h⟩
        | some crule =>
          dsimp only
          split
          · rename_i hguard
            have hadvP := advance_post (traceIf c "Inside infix rule loop")
            have hadvPrev := advance_previous (traceIf c "Inside infix rule loop")
            rcases hadv : advance (traceIf c "Inside infix rule loop") with ⟨r, c2⟩
            rw [hadv] at hadvP hadvPrev
            have hadvPc : StepPost c (r, c2) :=
              steppost_entry (codeOf_traceIf c _) (traceIf_erroredAt c _)
                (traceIf_skipped c _) hadvP
            cases r with
            | ok a =>
              dsimp only
              have hprevcur : c2.parser.previous = some cur := by
                rw [hadvPrev, traceIf_cursor, hc]
              cases hprev : c2.parser.previous with
              | none => rw [hprev] at hprevcur; cases hprevcur
              | some prev =>
                dsimp only
                rw [hprev] at hprevcur
                have hpc : prev = cur := Option.some.inj hprevcur
                cases hpr : get_rule prev.token_type with
                | none =>
                  exfalso
                  rw [hpc, hcr] at hpr
                  cases hpr
                | some prule =>
                  dsimp only
                  have hpe : prule = crule := by
                    rw [hpc, hcr] at hpr
                    exact (Option.some.inj hpr).symm
                  cases hif : prule.infixFn with
                  | none =>
                    exfalso
                    have hs : (crule.infixFn).isSome = true :=
                      rules_infix_of_prec hcr (le_trans hp1 hguard)
                    rw [← hpe, hif] at hs
                    cases hs
                  | some ifn =>
                    cases ifn
                    dsimp only
                    have hbin := ih .binary (traceIf c2 "Calling infix rule") trivial
                    have hbinT : StepPost c2
                        (compilerStep n .binary (traceIf c2 "Calling infix rule")) :=
                      steppost_entry (codeOf_traceIf c2 _) (traceIf_erroredAt c2 _)
                        (traceIf_skipped c2 _) hbin
                    rcases hb : compilerStep n .binary (traceIf c2 "Calling infix rule")
                      with ⟨r4, c4⟩
                    rw [hb] at hbinT
                    cases r4 with
                    | ok a4 =>
                      dsimp only
                      exact steppost_seq (stepcore_seq hadvPc.1 hbinT.1)
                        (ih (.infixL p) c4 ⟨hp1, hbinT.2 rfl⟩)
                    | perr =>
                      exact ⟨stepcore_seq hadvPc.1 hbinT.1, by intro h; simp at h⟩
                    | panicked t =>
                      exact ⟨stepcore_seq hadvPc.1 hbinT.1, by intro h; simp at h⟩
                    | fuelOut =>
                      exact ⟨stepcore_seq hadvPc.1 hbinT.1, by intro h; simp at h⟩
            | perr => exact hadvPc
            | panicked t => exact hadvPc
            | fuelOut => exact hadvPc
          · refine ⟨stepcore_pure rfl rfl rfl (by simp) (by simp), ?_⟩
            intro _
            rw [hc]
            rfl
    | grouping =>
      simp only [compilerStep]
      have hh := ih .expression c trivial
      rcases hg : compilerStep n .expression c with ⟨r1, c1⟩
      rw [hg] at hh
      cases r1 with
      | ok a1 =>
        dsimp only
        exact steppost_seq hh.1 (consume_post c1 _ _ (hh.2 rfl))
      | perr => exact hh
      | panicked t => exact hh
      | fuelOut => exact hh
    | unary =>
      simp only [compilerStep]
      cases hprev : c.parser.previous with
      | none =>
        exact ⟨stepcore_pure rfl rfl rfl (by simp) (by simp), by intro h; simp at h⟩
      | some prev =>
        dsimp only
        have hh := ih (.parseP .Unary) c (by decide : 1 ≤ Precedence.toNat .Unary)
        rcases hg : compilerStep n (.parseP .Unary) c with ⟨r1, c1⟩
        rw [hg] at hh
        cases r1 with
        | ok a1 =>
          dsimp only
          have hcur1 : (c1.parser.current).isSome = true := hh.2 rfl
          split
          · refine steppost_seq hh.1 ⟨?_, ?_⟩
            · refine stepcore_entry (codeOf_traceIf c1 _) (traceIf_erroredAt c1 _)
                (traceIf_skipped c1 _) (emit_line_op_core _ _)
            · intro _
              rw [emit_line_op_cursor, traceIf_cursor]
              exact hcur1
          · refine steppost_seq hh.1 ⟨?_, ?_⟩
            · exact stepcore_pure (codeOf_traceIf c1 _) (traceIf_erroredAt c1 _)
                (traceIf_skipped c1 _) (by simp) (by simp)
            · intro _
              rw [traceIf_cursor]
              exact hcur1
        | perr => exact hh
        | panicked t => exact hh
        | fuelOut => exact hh
    | binary =>
      simp only [compilerStep]
      cases hprev : c.parser.previous with
      | none =>
        exact ⟨stepcore_pure rfl rfl rfl (by simp) (by simp), by intro h; simp at h⟩
      | some prev =>
        dsimp only
        cases hrule : get_rule prev.token_type with
        | none =>
          exact ⟨stepcore_pure rfl rfl rfl (by simp) (by simp), by intro h; simp at h⟩
        | some rule =>
          dsimp only
          have hh := ih (.parseP (next_precedence rule.precedence))
            (traceIf c "Called binary") (next_precedence_pos _)
          have hhT : StepPost c
              (compilerStep n (.parseP (next_precedence rule.precedence))
                (traceIf c "Called binary")) :=
            steppost_entry (codeOf_traceIf c _) (traceIf_erroredAt c _)
              (traceIf_skipped c _) hh
          rcases hg : compilerStep n (.parseP (next_precedence rule.precedence))
            (traceIf c "Called binary") with ⟨r1, c2⟩
          rw [hg] at hhT
          cases r1 with
          | ok a1 =>
            dsimp only
            refine steppost_seq hhT.1 ⟨binary_emit_core c2 _, ?_⟩
            intro _
            rw [binary_emit_cursor]
            exact hhT.2 rfl
          | perr => exact hhT
          | panicked t => exact hhT
          | fuelOut => exact hhT

end RLox

namespace RLox

/-- The compile entry point satisfies the master invariant relative to the
state with the target chunk bound. -/
lemma compileF_post (fuel : Nat) (c : Compiler) (chunk : Chunk) :
    StepPost { c with current_chunk := some chunk } (compileF fuel c chunk) := by
  unfold compileF
  dsimp only
  have hadvP := advance_post { c with current_chunk := some chunk }
  rcases hadv : advance { c with current_chunk := some chunk } with ⟨r, c1⟩
  rw [hadv] at hadvP
  cases r with
  | ok a =>
    dsimp only
    have hh := step_post fuel .expression c1 trivial
    rcases hg : compilerStep fuel .expression c1 with ⟨r2, c2⟩
    rw [hg] at hh
    cases r2 with
    | ok a2 =>
      dsimp only
      exact steppost_seq hadvP.1 (steppost_seq hh.1 (consume_post c2 _ _ (hh.2 rfl)))
    | perr => exact steppost_seq hadvP.1 hh
    | panicked t => exact steppost_seq hadvP.1 hh
    | fuelOut => exact steppost_seq hadvP.1 hh
  | perr => exact hadvP
  | panicked t => exact hadvP
  | fuelOut => exact hadvP

lemma compile_post (c : Compiler) (chunk : Chunk) :
    StepPost { c with current_chunk := some chunk } (compile c chunk) :=
  compileF_post _ c chunk

end RLox

namespace RLox

lemma get_rule_isSome (t : TokenType) : (get_rule t).isSome = true := by
  revert t
  decide

/-- Symbolic run for a token stream whose first token has no prefix handler:
the compile raises exactly the `Expected expression` diagnostic at that
token, emits nothing, and fails. -/
lemma expr_err_run (fuel : Nat) (t0 : Token) (rest : List Token) (chunk : Chunk)
    (h0 : ¬ t0.token_type = .Error)
    (h1 : ¬ (rest.headD Scanner.eof_token).token_type = .Error)
    (hpf : (get_rule t0.token_type).all (fun r => r.prefixFn.isNone) = true) :
    (compileF (fuel + 2) (from_source (t0 :: rest) false) chunk).1 = .perr ∧
    (compileF (fuel + 2) (from_source (t0 :: rest) false) chunk).2.stdout =
      [.errLine t0 "Expected expression"] ∧
    codeOf (compileF (fuel + 2) (from_source (t0 :: rest) false) chunk).2 = chunk.code := by
  rcases hr : get_rule t0.token_type with _ | r0
  · exact absurd (get_rule_isSome t0.token_type) (by rw [hr]; simp)
  · rw [hr] at hpf
    simp only [Option.all_some, Option.isNone_iff_eq_none] at hpf
    cases rest with
    | nil =>
      simp [compileF, compilerStep, advance, Scanner.scan_token, Scanner.eof_token,
        from_source, Parser.new, traceIf, pushOut, error, error_at, error_at_current,
        codeOf, h0, hr, hpf]
    | cons t1 ts =>
      simp only [List.headD_cons] at h1
      simp [compileF, compilerStep, advance, Scanner.scan_token, Scanner.eof_token,
        from_source, Parser.new, traceIf, pushOut, error, error_at, error_at_current,
        codeOf, h0, h1, hr, hpf]

/-! ### Concrete token streams

The scanner is external (spec section 1); these are the token streams it
produces for the source texts named in the testable properties. -/

/-- A numeric-literal token carrying its literal text. -/
def numTok (lit : String) (line : Nat) : Token :=
  { token_type := .Number, start := 0, length := 0, literal := some lit,
    line := line, message := none }

/-- An operator / punctuation / end-of-input token. -/
def opTok (tt : TokenType) (line : Nat) : Token :=
  { token_type := tt, start := 0, length := 0, literal := none,
    line := line, message := none }

/-- The token stream of the source text `1 - 2 - 3`. -/
def tokensSub : List Token :=
  [numTok "1" 1, opTok .MINUS 1, numTok "2" 1, opTok .MINUS 1, numTok "3" 1,
   opTok .EOF 1]

/-- The token stream of the source text `1 + 2 * 3`. -/
def tokensMul : List Token :=
  [numTok "1" 1, opTok .PLUS 1, numTok "2" 1, opTok .STAR 1, numTok "3" 1,
   opTok .EOF 1]

/-- The token stream of the source text `1`. -/
def tokensOne : List Token := [numTok "1" 1, opTok .EOF 1]

/-- The token stream of the source text `* 1`. -/
def tokensStar : List Token := [opTok .STAR 1, numTok "1" 1, opTok .EOF 1]

/-- The empty chunk a fresh compile targets. -/
def emptyChunk : Chunk := { code := [], constants := [] }

end RLox

namespace RLox

set_option maxRecDepth 100000

/-! ### The claims -/

/-- C1 (counterexample): the claim says the successor of the top precedence
level saturates at the highest defined rank (`Primary`); on the code,
`next_precedence Primary` is `Assignment`, not `Primary`. -/
theorem c1_counterexample :
    next_precedence Precedence.Primary = Precedence.Assignment ∧
    next_precedence Precedence.Primary ≠ Precedence.Primary := by
  constructor
  · rfl
  · decide

/-- C1 (amended): for every precedence level `p`, `next_precedence p` is the
level of rank `rank p + 1`, except at the top of the ladder (`Primary`),
where it substitutes `Assignment` (the `unwrap_or` default) instead of
panicking. -/
theorem c1_next_precedence_succ (p : Precedence) :
    (p = Precedence.Primary ∧ next_precedence p = Precedence.Assignment) ∨
    (next_precedence p).toNat = p.toNat + 1 := by
  revert p
  decide

/-- C2: the rule table is total over the token kinds: the kinds' ranks are
exactly `0 .. RULES.length - 1` in order (one row per kind, in kind-rank
order), so `get_rule` returns a rule for every kind and never panics; and a
rule with both handlers absent has precedence `NONE`. -/
theorem c2_get_rule_total :
    TokenType.all.map TokenType.rank = List.range RULES.length ∧
    ∀ t : TokenType, ∃ r, get_rule t = some r ∧
      ((r.prefixFn).isSome = true ∨ (r.infixFn).isSome = true ∨
        r.precedence = Precedence.NONE) := by
  refine ⟨by decide, ?_⟩
  intro t
  cases t <;> exact ⟨_, rfl, by decide⟩

/-- C3: compiling `1 - 2 - 3` succeeds and emits exactly
`Const 1, Const 2, Sub, Const 3, Sub` — same-precedence operators are
left-associative. -/
theorem c3_left_associativity :
    (compile (from_source tokensSub false) emptyChunk).1 = .ok () ∧
    codeOf (compile (from_source tokensSub false) emptyChunk).2 =
      [.Const 1 0, .Const 1 1, .Sub 1, .Const 1 2, .Sub 1] ∧
    constsOf (compile (from_source tokensSub false) emptyChunk).2 =
      [.Float "1", .Float "2", .Float "3"] :=
  ⟨rfl, rfl, rfl⟩

/-- C4: compiling `1 + 2 * 3` succeeds and emits exactly
`Const 1, Const 2, Const 3, Mul, Add` — the multiplication's operands are
all emitted before the `Add` opcode. -/
theorem c4_precedence_binding :
    (compile (from_source tokensMul false) emptyChunk).1 = .ok () ∧
    codeOf (compile (from_source tokensMul false) emptyChunk).2 =
      [.Const 1 0, .Const 1 1, .Const 1 2, .Mul 1, .Add 1] ∧
    constsOf (compile (from_source tokensMul false) emptyChunk).2 =
      [.Float "1", .Float "2", .Float "3"] :=
  ⟨rfl, rfl, rfl⟩

/-- C5 (the code violates the claim): compiling the source `1` with the
verbosity flag disabled still writes the `Skipping infix rule loop` trace
line to standard output — the `println!` at src/compiler.rs lines 525-536
is not guarded by `debug_mode`, unlike every other trace site. -/
theorem c5_trace_leaks_without_debug :
    (from_source tokensOne false).debug_mode = false ∧
    (compile (from_source tokensOne false) emptyChunk).2.stdout =
      [.trace "Skipping infix rule loop"] ∧
    (compile (from_source tokensOne false) emptyChunk).1 = .ok () :=
  ⟨rfl, rfl, rfl⟩

/-- C6: a compile reports a parse error exactly when one was recorded; the
ghost `erroredAt` (the opcode count at the moment the first error was
raised) then equals the final opcode count, so no opcode is appended past
the point of failure; and the final code extends the initial chunk's code —
opcodes emitted before the error remain, the chunk is never rolled back. -/
theorem c6_first_error_stops_emission (tokens : List Token) (dbg : Bool)
    (chunk : Chunk) :
    ((compile (from_source tokens dbg) chunk).1 = .perr ↔
      ((compile (from_source tokens dbg) chunk).2.erroredAt).isSome = true) ∧
    ((compile (from_source tokens dbg) chunk).2.erroredAt = none ∨
      (compile (from_source tokens dbg) chunk).2.erroredAt =
        some (codeOf (compile (from_source tokens dbg) chunk).2).length) ∧
    ∃ γ, codeOf (compile (from_source tokens dbg) chunk).2 = chunk.code ++ γ := by
  have h := (compile_post (from_source tokens dbg) chunk).1
  obtain ⟨⟨γ, hγ⟩, he, _, _⟩ := h
  have he' := he rfl
  exact ⟨he'.1, he'.2, ⟨γ, hγ⟩⟩

/-- C7: for every token stream whose first token has no prefix handler (and
whose first two scans are not lexical-error tokens, so the parse reaches the
prefix check), compilation fails with the `Expected expression` diagnostic
attributed to that first token, and nothing is emitted. -/
theorem c7_expected_expression (t0 : Token) (rest : List Token) (chunk : Chunk)
    (h0 : ¬ t0.token_type = .Error)
    (h1 : ¬ (rest.headD Scanner.eof_token).token_type = .Error)
    (hpf : (get_rule t0.token_type).all (fun r => r.prefixFn.isNone) = true) :
    (compile (from_source (t0 :: rest) false) chunk).1 = .perr ∧
    (compile (from_source (t0 :: rest) false) chunk).2.stdout =
      [.errLine t0 "Expected expression"] ∧
    codeOf (compile (from_source (t0 :: rest) false) chunk).2 = chunk.code :=
  expr_err_run (4 * (t0 :: rest).length + 6) t0 rest chunk h0 h1 hpf

/-- C7 witness: the source `* 1` — the leading `*` has no prefix handler,
so the compile fails with `Expected expression` at the `*` token. -/
theorem c7_expected_expression_star :
    (compile (from_source tokensStar false) emptyChunk).1 = .perr ∧
    (compile (from_source tokensStar false) emptyChunk).2.stdout =
      [.errLine (opTok .STAR 1) "Expected expression"] ∧
    codeOf (compile (from_source tokensStar false) emptyChunk).2 = emptyChunk.code :=
  c7_expected_expression (opTok .STAR 1) [numTok "1" 1, opTok .EOF 1] emptyChunk
    (by decide) (by decide) (by decide)

/-- C8: compilation is deterministic — two compilers freshly constructed
from the same token stream and flag, compiling into two fresh empty chunks,
produce the same result, the same opcode sequence and the same constant
pool. -/
theorem c8_deterministic (tokens : List Token) (dbg : Bool) (c1 c2 : Compiler)
    (h1 : c1 = from_source tokens dbg) (h2 : c2 = from_source tokens dbg)
    (ch1 ch2 : Chunk) (e1 : ch1 = emptyChunk) (e2 : ch2 = emptyChunk) :
    (compile c1 ch1).1 = (compile c2 ch2).1 ∧
    codeOf (compile c1 ch1).2 = codeOf (compile c2 ch2).2 ∧
    constsOf (compile c1 ch1).2 = constsOf (compile c2 ch2).2 := by
  subst h1; subst h2; subst e1; subst e2
  exact ⟨rfl, rfl, rfl⟩

/-- C8 witness: the two runs on the stream of `1` agree. -/
theorem c8_deterministic_one :
    (compile (from_source tokensOne false) emptyChunk).1 =
      (compile (from_source tokensOne false) emptyChunk).1 ∧
    codeOf (compile (from_source tokensOne false) emptyChunk).2 =
      codeOf (compile (from_source tokensOne false) emptyChunk).2 ∧
    constsOf (compile (from_source tokensOne false) emptyChunk).2 =
      constsOf (compile (from_source tokensOne false) emptyChunk).2 :=
  c8_deterministic tokensOne false _ _ rfl rfl _ _ rfl rfl

/-- C9: every token kind whose rule precedence is above `NONE` also defines
an infix handler, and consequently the `continue` branch of the infix loop
(counted by the ghost `skipped`) is never executed in any compile. -/
theorem c9_continue_unreachable :
    (∀ t : TokenType, ∃ r, get_rule t = some r ∧
      (r.precedence = Precedence.NONE ∨ (r.infixFn).isSome = true)) ∧
    ∀ (tokens : List Token) (dbg : Bool) (chunk : Chunk),
      (compile (from_source tokens dbg) chunk).2.skipped = 0 := by
  constructor
  · intro t
    cases t <;> exact ⟨_, rfl, by decide⟩
  · intro tokens dbg chunk
    exact (compile_post (from_source tokens dbg) chunk).1.2.2.1

/-- C10: no `current().unwrap()` ever panics: a compile never returns the
panic of the `currentNone` tag, which marks every `current().unwrap()` site
of src/compiler.rs (in `error_at_current`, `consume`, and
`parse_precedence`'s prefix continuation and infix loop). -/
theorem c10_current_unwrap_safe (tokens : List Token) (dbg : Bool) (chunk : Chunk) :
    (compile (from_source tokens dbg) chunk).1 ≠ RRes.panicked "currentNone" :=
  (compile_post (from_source tokens dbg) chunk).1.2.2.2

end RLox
